import Mathlib

/-!
Shallow embedding of the QuantumIQ frontend (TypeScript/React) in Lean 4.

Embedded modules:
  * the gate catalog and gate metadata (`types.ts`),
  * the circuit-provider state machine (`useCircuit.tsx`),
  * the drop handler of the circuit grid (`CircuitGrid.tsx`),
  * the API service request bodies (`api.ts`),
  * the chat panel send-message flow (`ChatPanel.tsx`),
  * the step-playback interval loop (`useCircuit.tsx`),
  * the agent loop, modelled from the specification (its implementation
    lives in the backend, outside the embedded sources).

JavaScript numbers returned by `parseInt` are modelled by `JNum`
(an integer or NaN); plain numeric fields are modelled by `Int`.
-/

namespace QuantumIQ

/-- Gate names, from the `GateName` union type in `types.ts`. -/
inductive GateName where
  | h | x | y | z | cx | ccx | s | t
deriving DecidableEq

/-- Gate metadata, from the `GateInfo` interface in `types.ts`. -/
structure GateInfo where
  name : String
  symbol : String
  description : String
  qubits : Nat
  color : String
deriving DecidableEq

/-- The `GATE_CATALOG` constant of `types.ts`, entry for entry. -/
def GATE_CATALOG : GateName → GateInfo
  | .h => ⟨"Hadamard", "H", "Creates superposition", 1, "#5c7cfa"⟩
  | .x => ⟨"Pauli-X", "X", "Bit flip (NOT gate)", 1, "#ff6b6b"⟩
  | .y => ⟨"Pauli-Y", "Y", "Bit+phase flip", 1, "#51cf66"⟩
  | .z => ⟨"Pauli-Z", "Z", "Phase flip", 1, "#ffd43b"⟩
  | .cx => ⟨"CNOT", "CX", "Controlled NOT", 2, "#845ef7"⟩
  | .ccx => ⟨"Toffoli", "CCX", "Controlled-controlled NOT", 3, "#f783ac"⟩
  | .s => ⟨"S Gate", "S", "π/2 phase shift", 1, "#20c997"⟩
  | .t => ⟨"T Gate", "T", "π/4 phase shift", 1, "#fd7e14"⟩

/-- The gate-name list rendered by `GatePalette.tsx` (also the key set of
`GATE_CATALOG`, in declaration order). -/
def gateNames : List GateName := [.h, .x, .y, .z, .cx, .ccx, .s, .t]

/-- A JavaScript number as produced by `parseInt`: an integer or NaN. -/
inductive JNum where
  | nan
  | int (v : Int)
deriving DecidableEq

namespace JNum

/-- JavaScript `a >= b` for a parsed number against an integer bound;
every comparison against NaN is false. -/
def jge : JNum → Int → Bool
  | .nan, _ => false
  | .int v, b => b ≤ v

/-- JavaScript `a < b` for a parsed number against an integer bound;
every comparison against NaN is false. -/
def jlt : JNum → Int → Bool
  | .nan, _ => false
  | .int v, b => v < b

/-- JavaScript strict inequality `a !== b`; note `NaN !== NaN` is true. -/
def strictNe : JNum → JNum → Bool
  | .nan, _ => true
  | _, .nan => true
  | .int v, .int w => v ≠ w

/-- Underlying integer of a parsed number (junk value 0 for NaN; every
use below is guarded by `jge`, which rules NaN out). -/
def toInt : JNum → Int
  | .nan => 0
  | .int v => v

end JNum

/-- One gate operation, from the `GateOperation` interface in `types.ts`
(`step` is optional there). -/
structure GateOp where
  gate : GateName
  targets : List Int
  step : Option Nat
deriving DecidableEq

/-- The drop handler `handleGateDrop` of `CircuitGrid.tsx`. Inputs
`p1 p2 p3` are the `parseInt(prompt(..) || d)` results (the third is read
only for three-qubit gates, the second only for two- and three-qubit
gates). Returns the operation passed to `addGate`, or `none` when the
guard fails and no gate is added. JavaScript `new Set(..).size` uses
SameValueZero, which coincides with equality on `JNum`. -/
def handleGateDrop (gateName : GateName) (numQubits : Int)
    (p1 p2 p3 : JNum) : Option (GateName × List Int) :=
  let gateInfo := GATE_CATALOG gateName
  if gateInfo.qubits = 1 then
    if p1.jge 0 && p1.jlt numQubits then
      some (gateName, [p1.toInt])
    else none
  else if gateInfo.qubits = 2 then
    if p1.strictNe p2 && p1.jge 0 && p2.jge 0 &&
        p1.jlt numQubits && p2.jlt numQubits then
      some (gateName, [p1.toInt, p2.toInt])
    else none
  else if gateInfo.qubits = 3 then
    if [p1, p2, p3].dedup.length = 3 &&
        ([p1, p2, p3].all fun q => q.jge 0 && q.jlt numQubits) then
      some (gateName, [p1.toInt, p2.toInt, p3.toInt])
    else none
  else none

/-- Placeholder for the opaque-to-the-frontend simulation payloads
(`SimulationResult` / `StepSimulationResult` carry backend data; the
provider only stores, clears, and indexes them). `steps` is the length
of the `steps` array of a `StepSimulationResult`. -/
structure StepRes where
  steps : Nat
deriving DecidableEq

/-- The state held by `CircuitProvider` in `useCircuit.tsx`: one field
per `useState` hook (the full-simulation result is opaque here, only its
presence matters to the provider's own logic). -/
structure ProviderState where
  gates : List GateOp
  numQubits : Int
  simulationResult : Option Unit
  stepResult : Option StepRes
  currentStep : Int
  isSimulating : Bool
  isSteppingThrough : Bool
deriving DecidableEq

/-- The initial provider state: `useState` initialisers of
`CircuitProvider` (empty gate list, 2 qubits, no results, step 0). -/
def initialState : ProviderState :=
  { gates := [], numQubits := 2, simulationResult := none,
    stepResult := none, currentStep := 0,
    isSimulating := false, isSteppingThrough := false }

/-- The `addGate` callback of `CircuitProvider`: appends the operation
with `step` set to the previous list length and clears the
full-simulation result. -/
def addGate (st : ProviderState) (gate : GateName) (targets : List Int) :
    ProviderState :=
  { st with
      gates := st.gates ++ [⟨gate, targets, some st.gates.length⟩],
      simulationResult := none }

/-- The `removeGate` callback of `CircuitProvider`:
`prev.filter((_, i) => i !== index)`, and clears the full-simulation
result. -/
def removeGate (st : ProviderState) (index : Nat) : ProviderState :=
  { st with
      gates := ((st.gates.enum.filter fun p => p.1 ≠ index).map Prod.snd),
      simulationResult := none }

/-- The `clearCircuit` callback of `CircuitProvider`. -/
def clearCircuit (st : ProviderState) : ProviderState :=
  { st with
      gates := [],
      simulationResult := none,
      stepResult := none,
      currentStep := 0 }

/-- The `loadCircuit` callback of `CircuitProvider`: installs the given
gates and qubit count unchanged and clears both simulation results. -/
def loadCircuit (st : ProviderState) (newGates : List GateOp)
    (qubits : Int) : ProviderState :=
  { st with
      gates := newGates,
      numQubits := qubits,
      simulationResult := none,
      stepResult := none }

/-- The `setNumQubits` state setter as wired to the qubit selector in
`CircuitGrid.tsx`. -/
def setNumQubitsAction (st : ProviderState) (n : Int) : ProviderState :=
  { st with numQubits := n }

/-- The option values of the qubit selector in `CircuitGrid.tsx`:
`[1, 2, 3, 4, 5].map(n => <option .. value={n}>)`. -/
def qubitSelectorOptions : List Int := [1, 2, 3, 4, 5]

/-- Folding `addGate` calls over the initial (empty) circuit. -/
def addGates (ops : List (GateName × List Int)) : ProviderState :=
  ops.foldl (fun st op => addGate st op.1 op.2) initialState

/-- JavaScript `a || d` on an optional number: `undefined`, `0` (and
NaN, not produced here) are falsy and select the default. -/
def jsOrDefault (a : Option Int) (d : Int) : Int :=
  match a with
  | none => d
  | some v => if v = 0 then d else v

/-- The request body that `ApiService.simulate` in `api.ts` posts to
`/simulate/`: `{ circuit_data, num_qubits, shots: shots || 1024 }`. -/
structure SimulateBody where
  circuit_data : List GateOp
  num_qubits : Int
  shots : Int
deriving DecidableEq

/-- The `ApiService.simulate` method of `api.ts`, as the request body it
posts (the `shots` parameter is optional). -/
def ApiService.simulate (circuit_data : List GateOp) (num_qubits : Int)
    (shots : Option Int) : SimulateBody :=
  ⟨circuit_data, num_qubits, jsOrDefault shots 1024⟩

/-- One conversation-history entry as kept in `conversationRef.current`
of `ChatPanel.tsx` (`{ role, content }`). -/
structure ChatTurn where
  role : String
  content : String
deriving DecidableEq

/-- The history update after a successful exchange in
`ChatPanel.sendMessage`: push the user and assistant turns, then
`slice(-20)` when the length exceeds 20. -/
def updateConversation (hist : List ChatTurn) (userTurn asstTurn : ChatTurn) :
    List ChatTurn :=
  let pushed := hist ++ [userTurn, asstTurn]
  if 20 < pushed.length then pushed.drop (pushed.length - 20) else pushed

/-- One tool-call record from a chat response (`ToolCallRecord` in
`types.ts`; argument values are opaque to the frontend). -/
structure ToolCallRec where
  tool : String
  result_preview : String
deriving DecidableEq

/-- The payload of `api.chat`'s resolved value in `api.ts` (the
`challenge` record is opaque to `sendMessage`, which stores it
unchanged). -/
structure ChatResponse where
  response : String
  tool_calls : Option (List ToolCallRec)
  suggested_circuit : Option (List GateOp)
  challenge : Option String
deriving DecidableEq

/-- One entry of the `messages` list of `ChatPanel.tsx` (`ChatMessage`
in `types.ts`). -/
structure ChatMsg where
  role : String
  content : String
  tool_calls : Option (List ToolCallRec)
  challenge : Option String
deriving DecidableEq

/-- The fixed error text appended by the `catch` branch of
`ChatPanel.sendMessage`. -/
def chatErrorText : String :=
  "Sorry, I encountered an error. Please make sure the backend is running and your API key is configured."

/-- JavaScript truthiness of `!input.trim()`: the trimmed string is
empty exactly when the input consists solely of whitespace. -/
def isBlank (s : String) : Bool := s.data.all fun c => c.isWhitespace

/-- Result of one `ChatPanel.sendMessage` run: the message list, the
conversation ref, and the provider state (touched only when a suggested
circuit arrives). -/
structure SendOutcome where
  messages : List ChatMsg
  conversation : List ChatTurn
  provider : ProviderState
deriving DecidableEq

/-- The `sendMessage` handler of `ChatPanel.tsx`. `apiResult` is how the
`api.chat` promise settled (`Except.error` for a rejection, whose value
the `catch` ignores). Early-returns when the trimmed input is empty or
a send is already in flight; otherwise appends the user message and then
exactly one assistant message — the response text on success, the fixed
error text on failure — never re-throwing. -/
def sendMessage (input : String) (isLoading : Bool)
    (messages : List ChatMsg) (conversation : List ChatTurn)
    (provider : ProviderState) (apiResult : Except Unit ChatResponse) :
    SendOutcome :=
  if isBlank input || isLoading then ⟨messages, conversation, provider⟩
  else
    let withUser := messages ++ [⟨"user", input, none, none⟩]
    match apiResult with
    | .ok r =>
        let conv := updateConversation conversation
          ⟨"user", input⟩ ⟨"assistant", r.response⟩
        let asst : ChatMsg := ⟨"assistant", r.response, r.tool_calls, r.challenge⟩
        let prov := match r.suggested_circuit with
          | some sc => loadCircuit provider sc provider.numQubits
          | none => provider
        ⟨withUser ++ [asst], conv, prov⟩
    | .error _ =>
        ⟨withUser ++ [⟨"assistant", chatErrorText, none, none⟩],
          conversation, provider⟩

/-- The slice of provider state the `playStepThrough` interval closure
of `useCircuit.tsx` touches: the step index, the stepping flag, and
whether the interval is still scheduled (`clearInterval` not yet run). -/
structure PlayState where
  currentStep : Int
  isSteppingThrough : Bool
  intervalActive : Bool
deriving DecidableEq

/-- One tick of the `setInterval` callback in `playStepThrough`
(`numSteps` is `stepResult.steps.length`, captured by the closure): at
or past the last index it clears the interval, resets the stepping flag
and keeps `prev`; otherwise it returns `prev + 1`. -/
def stepTick (numSteps : Int) (p : PlayState) : PlayState :=
  if numSteps - 1 ≤ p.currentStep then
    { currentStep := p.currentStep, isSteppingThrough := false,
      intervalActive := false }
  else
    { p with currentStep := p.currentStep + 1 }

/-- The state set up by `playStepThrough` before the first tick:
`setIsSteppingThrough(true); setCurrentStep(0)` and a live interval. -/
def playInit : PlayState :=
  { currentStep := 0, isSteppingThrough := true, intervalActive := true }

/-- Running `k` interval firings: a tick happens only while the
interval is scheduled. -/
def playRun (numSteps : Int) : Nat → PlayState → PlayState
  | 0, p => p
  | k + 1, p =>
      if p.intervalActive then playRun numSteps k (stepTick numSteps p)
      else p

/-- Modelled from the spec: the AgentLoop (backend component, not among
the embedded frontend sources). The reasoning seam is a function from
the context to either a tool request or final text (spec §4.6 and §9);
the loop performs at most 8 round-trips, dispatches requested tools and
threads results, returns final text when offered, and on exhausting the
bound terminates with a best-effort fallback response instead of
raising. `Ctx` is the conversation context, `Tool` a tool request. -/
inductive ReasonStep (Ctx Tool : Type) where
  | toolCall (req : Tool)
  | finalText (text : String)

/-- Modelled from the spec: outcome of one AgentLoop run — the response
text, how many reasoning round-trips ran, and how many tool invocations
were issued. -/
structure LoopOutcome where
  text : String
  iterations : Nat
  toolCalls : Nat
deriving DecidableEq

/-- Modelled from the spec: the best-effort fallback response returned
when the round-trip bound is exhausted (spec §4.6); non-empty by design
since the caller always receives a textual response (spec §7). -/
def fallbackText : String :=
  "I was unable to finish reasoning about that. Here is my best attempt so far."

/-- Modelled from the spec: the bounded reasoning/tool loop. `fuel` is
the remaining round-trip budget; each round submits the context to the
reasoning component, dispatches a requested tool through the executor
and continues, or stops with the final text. -/
def runLoop {Ctx Tool : Type} (reason : Ctx → ReasonStep Ctx Tool)
    (execTool : Tool → Ctx → Ctx) :
    Nat → Ctx → Nat → Nat → LoopOutcome
  | 0, _, iters, tools => ⟨fallbackText, iters, tools⟩
  | fuel + 1, ctx, iters, tools =>
      match reason ctx with
      | .finalText txt => ⟨txt, iters + 1, tools⟩
      | .toolCall req =>
          runLoop reason execTool fuel (execTool req ctx)
            (iters + 1) (tools + 1)

/-- Modelled from the spec: the hard bound of 8 round-trips per
incoming message (spec §4.6). -/
def loopBound : Nat := 8

/-- Modelled from the spec: one AgentLoop run over an incoming message's
initial context. -/
def agentLoop {Ctx Tool : Type} (reason : Ctx → ReasonStep Ctx Tool)
    (execTool : Tool → Ctx → Ctx) (ctx : Ctx) : LoopOutcome :=
  runLoop reason execTool loopBound ctx 0 0

lemma updateConversation_length_le (hist : List ChatTurn) (u a : ChatTurn) :
    (updateConversation hist u a).length ≤ 20 := by
  simp only [updateConversation]
  split
  · simp only [List.length_drop]
    omega
  · rename_i hlen
    simp only [not_lt] at hlen
    exact hlen

lemma updateConversation_eq_drop (hist : List ChatTurn) (u a : ChatTurn) :
    updateConversation hist u a =
      (hist ++ [u, a]).drop (hist.length + 2 - 20) := by
  have hlen : (hist ++ [u, a]).length = hist.length + 2 := by simp
  simp only [updateConversation]
  split
  · rw [hlen]
  · rename_i hle
    rw [hlen] at hle
    have hz : hist.length + 2 - 20 = 0 := by omega
    rw [hz, List.drop_zero]

lemma foldl_updateConversation_length_le
    (exchanges : List (ChatTurn × ChatTurn)) :
    ∀ acc : List ChatTurn, acc.length ≤ 20 →
      (exchanges.foldl (fun hst e => updateConversation hst e.1 e.2)
        acc).length ≤ 20 := by
  induction exchanges with
  | nil => intro acc hacc; simpa using hacc
  | cons e es ih =>
      intro acc _
      simpa using ih (updateConversation acc e.1 e.2)
        (updateConversation_length_le acc e.1 e.2)

/-- C3: the gate catalog is an immutable value with exactly the 8
entries h, x, y, z, s, t, cx, ccx (Hadamard, Pauli-X, Pauli-Y, Pauli-Z,
S, T, CNOT, Toffoli); every arity lies in 1–3, with arity 1 for
h, x, y, z, s, t, arity 2 for cx, and arity 3 for ccx. Immutability is
reflected by `GATE_CATALOG` being a pure definition; the key set is
exactly the 8 constructors of `GateName`, enumerated without repetition
by `gateNames`. -/
theorem gate_catalog_shape :
    gateNames.length = 8 ∧ gateNames.Nodup ∧
    (∀ g : GateName, g ∈ gateNames) ∧
    (∀ g : GateName,
      1 ≤ (GATE_CATALOG g).qubits ∧ (GATE_CATALOG g).qubits ≤ 3) ∧
    (GATE_CATALOG .h).qubits = 1 ∧ (GATE_CATALOG .x).qubits = 1 ∧
    (GATE_CATALOG .y).qubits = 1 ∧ (GATE_CATALOG .z).qubits = 1 ∧
    (GATE_CATALOG .s).qubits = 1 ∧ (GATE_CATALOG .t).qubits = 1 ∧
    (GATE_CATALOG .cx).qubits = 2 ∧ (GATE_CATALOG .ccx).qubits = 3 := by
  refine ⟨rfl, ?_, ?_, ?_, rfl, rfl, rfl, rfl, rfl, rfl, rfl, rfl⟩
  · decide
  · intro g; cases g <;> simp [gateNames]
  · intro g; cases g <;> simp [GATE_CATALOG]

/-- C4 counterexample: the claim says a supplied shots value is always
carried in the request body, but `shots || 1024` treats a supplied 0 as
falsy, so `simulate(cd, nq, 0)` posts shots = 1024, not the supplied 0. -/
theorem simulate_shots_zero_counterexample :
    (ApiService.simulate [] 2 (some 0)).shots = 1024 ∧
    ¬ (ApiService.simulate [] 2 (some 0)).shots = 0 := by
  exact ⟨rfl, by decide⟩

/-- C4 (amended): an omitted shots parameter posts the default 1024, a
supplied nonzero shots value is carried unchanged, and a supplied 0 is
falsy under `shots || 1024` and falls back to 1024. -/
theorem simulate_shots_default (cd : List GateOp) (nq : Int) :
    (ApiService.simulate cd nq none).shots = 1024 ∧
    (∀ v : Int, v ≠ 0 → (ApiService.simulate cd nq (some v)).shots = v) ∧
    (ApiService.simulate cd nq (some 0)).shots = 1024 := by
  refine ⟨rfl, ?_, rfl⟩
  intro v hv
  simp [ApiService.simulate, jsOrDefault, hv]

/-- Witness for C4 (amended) at a concrete request: shots omitted gives
1024, shots 7 gives 7, shots 0 gives 1024. -/
theorem simulate_shots_default_witness :
    (ApiService.simulate [] 2 none).shots = 1024 ∧
    (ApiService.simulate [] 2 (some 7)).shots = 7 ∧
    (ApiService.simulate [] 2 (some 0)).shots = 1024 :=
  ⟨(simulate_shots_default [] 2).1,
   (simulate_shots_default [] 2).2.1 7 (by decide),
   (simulate_shots_default [] 2).2.2⟩

/-- C5: after every completed exchange the conversation ref holds at
most 20 entries; the update appends the user and assistant turns and
keeps exactly the most recent 20 (the drop equation), and any sequence
of exchanges starting from the empty history — hence the history sent
with any chat request — never exceeds 20 entries. -/
theorem conversation_capped (hist : List ChatTurn) (u a : ChatTurn)
    (exchanges : List (ChatTurn × ChatTurn)) :
    (updateConversation hist u a).length ≤ 20 ∧
    updateConversation hist u a =
      (hist ++ [u, a]).drop (hist.length + 2 - 20) ∧
    (exchanges.foldl (fun hst e => updateConversation hst e.1 e.2)
        []).length ≤ 20 :=
  ⟨updateConversation_length_le hist u a,
   updateConversation_eq_drop hist u a,
   foldl_updateConversation_length_le exchanges [] (by simp)⟩

/-- C8: each of addGate, removeGate, clearCircuit and loadCircuit
clears the full-simulation result, and addGate and removeGate leave
every provider field other than the gate list and the full-simulation
result (stepResult, currentStep, numQubits, isSimulating,
isSteppingThrough) unchanged. -/
theorem mutators_clear_simulation (st : ProviderState) (g : GateName)
    (ts : List Int) (idx : Nat) (gs : List GateOp) (q : Int) :
    (addGate st g ts).simulationResult = none ∧
    (removeGate st idx).simulationResult = none ∧
    (clearCircuit st).simulationResult = none ∧
    (loadCircuit st gs q).simulationResult = none ∧
    (addGate st g ts).stepResult = st.stepResult ∧
    (addGate st g ts).currentStep = st.currentStep ∧
    (addGate st g ts).numQubits = st.numQubits ∧
    (addGate st g ts).isSimulating = st.isSimulating ∧
    (addGate st g ts).isSteppingThrough = st.isSteppingThrough ∧
    (removeGate st idx).stepResult = st.stepResult ∧
    (removeGate st idx).currentStep = st.currentStep ∧
    (removeGate st idx).numQubits = st.numQubits ∧
    (removeGate st idx).isSimulating = st.isSimulating ∧
    (removeGate st idx).isSteppingThrough = st.isSteppingThrough :=
  ⟨rfl, rfl, rfl, rfl, rfl, rfl, rfl,
   rfl, rfl, rfl, rfl, rfl, rfl, rfl⟩

lemma enumFrom_filter_ne_map_snd (l : List GateOp) (n idx : Nat) :
    ((List.enumFrom n l).filter fun p => p.1 ≠ idx).map Prod.snd =
      if idx < n then l else l.eraseIdx (idx - n) := by
  induction l generalizing n with
  | nil => simp
  | cons a l ih =>
      simp only [List.enumFrom, List.filter_cons]
      rcases Nat.lt_trichotomy idx n with hlt | heq | hgt
      · rw [if_pos (by simp; omega), List.map_cons, ih (n + 1),
          if_pos (by omega), if_pos hlt]
      · subst heq
        rw [if_neg (by simp), ih (idx + 1), if_pos (by omega),
          if_neg (by omega), Nat.sub_self, List.eraseIdx_cons_zero]
      · rw [if_pos (by simp; omega), List.map_cons, ih (n + 1),
          if_neg (by omega), if_neg (by omega)]
        have hsub : idx - n = (idx - (n + 1)) + 1 := by omega
        rw [hsub, List.eraseIdx_cons_succ]

lemma removeGate_gates_eq (st : ProviderState) (idx : Nat) :
    (removeGate st idx).gates = st.gates.eraseIdx idx := by
  have h := enumFrom_filter_ne_map_snd st.gates 0 idx
  rw [if_neg (Nat.not_lt_zero idx), Nat.sub_zero] at h
  simpa [removeGate, List.enum] using h

lemma addGate_gates (st : ProviderState) (g : GateName) (ts : List Int) :
    (addGate st g ts).gates =
      st.gates ++ [⟨g, ts, some st.gates.length⟩] := rfl

lemma addGate_step_invariant (st : ProviderState)
    (hst : ∀ (i : Nat) (gOp : GateOp), st.gates[i]? = some gOp → gOp.step = some i)
    (g : GateName) (ts : List Int) :
    ∀ (i : Nat) (gOp : GateOp),
      (addGate st g ts).gates[i]? = some gOp → gOp.step = some i := by
  intro i gOp hi
  rw [addGate_gates st g ts, List.getElem?_append] at hi
  split at hi
  · exact hst i gOp hi
  · rename_i hge
    push_neg at hge
    rcases List.getElem?_eq_some.mp hi with ⟨hlen, hval⟩
    simp only [List.length_singleton] at hlen
    have h0 : i - st.gates.length = 0 := by omega
    rw [h0, List.getElem?_cons_zero] at hi
    have hg : gOp = ⟨g, ts, some st.gates.length⟩ := (Option.some.inj hi).symm
    have hieq : i = st.gates.length := by omega
    rw [hg, hieq]

lemma addGates_go_invariant (ops : List (GateName × List Int)) :
    ∀ st : ProviderState,
      (∀ (i : Nat) (gOp : GateOp), st.gates[i]? = some gOp → gOp.step = some i) →
      ∀ (i : Nat) (gOp : GateOp),
        (ops.foldl (fun s op => addGate s op.1 op.2) st).gates[i]? =
            some gOp →
          gOp.step = some i := by
  induction ops with
  | nil => intro st hst; simpa using hst
  | cons op ops ih =>
      intro st hst
      simpa using ih (addGate st op.1 op.2)
        (addGate_step_invariant st hst op.1 op.2)

/-- C9: in every state reachable from the empty circuit by addGate
calls alone, the gate at position i carries step = i (addGate assigns
the pre-append list length); removeGate deletes exactly the gate at the
given position (it equals `eraseIdx`), every surviving gate is one of
the originals with its step untouched, and the step sequence can become
non-contiguous: adding three gates and removing position 1 leaves steps
[0, 2]. -/
theorem gate_step_numbering (ops : List (GateName × List Int))
    (st : ProviderState) (idx : Nat) :
    (∀ (i : Nat) (gOp : GateOp),
      (addGates ops).gates[i]? = some gOp → gOp.step = some i) ∧
    (removeGate st idx).gates = st.gates.eraseIdx idx ∧
    (∀ gOp ∈ (removeGate st idx).gates, gOp ∈ st.gates) ∧
    ((removeGate (addGates [(.h, [0]), (.x, [0]), (.z, [0])]) 1).gates.map
        fun gOp => gOp.step) = [some 0, some 2] := by
  refine ⟨?_, removeGate_gates_eq st idx, ?_, by decide⟩
  · exact addGates_go_invariant ops initialState
      (by intro i gOp h; simp [initialState] at h)
  · intro gOp hmem
    rw [removeGate_gates_eq st idx] at hmem
    exact (List.eraseIdx_sublist st.gates idx).subset hmem

/-- Witness for C9 at a concrete run: after adding H then X on an empty
circuit, the gate at position 1 is the X operation with step = 1. -/
theorem gate_step_numbering_witness :
    (addGates [(.h, [0]), (.x, [0])]).gates[1]? =
      some ⟨.x, [0], some 1⟩ ∧
    (GateOp.mk .x [0] (some 1)).step = some 1 :=
  ⟨by decide,
   (gate_step_numbering [(.h, [0]), (.x, [0])] initialState 0).1 1
     ⟨.x, [0], some 1⟩ (by decide)⟩

/-- C7 counterexample: the claim says every circuit installed via
loadCircuit has its qubit count within 1–5, but loadCircuit installs
the supplied count without any range check: loading with count 6
leaves the provider at 6 qubits. -/
theorem loadCircuit_out_of_range_counterexample :
    (loadCircuit initialState [] 6).numQubits = 6 ∧
    ¬ ((loadCircuit initialState [] 6).numQubits ≤ 5) :=
  ⟨rfl, by decide⟩

/-- C7 (amended): the initial qubit count is 2 (within 1–5), the
CircuitGrid selector offers exactly the values 1–5 and setNumQubits
installs the selected value, and loadCircuit installs exactly the
supplied count without range-checking — so a load stays within 1–5
precisely when the supplied count does (as it is for loads that reuse
the current count, e.g. suggested circuits); an out-of-range supplied
count (e.g. from a preset) is installed unchanged. -/
theorem qubit_count_range (st : ProviderState) (gs : List GateOp)
    (q : Int) (hq1 : 1 ≤ q) (hq5 : q ≤ 5) :
    initialState.numQubits = 2 ∧
    (1 ≤ initialState.numQubits ∧ initialState.numQubits ≤ 5) ∧
    qubitSelectorOptions = [1, 2, 3, 4, 5] ∧
    (∀ m ∈ qubitSelectorOptions,
      1 ≤ m ∧ m ≤ 5 ∧ (setNumQubitsAction st m).numQubits = m) ∧
    (loadCircuit st gs q).numQubits = q ∧
    (1 ≤ (loadCircuit st gs q).numQubits ∧
      (loadCircuit st gs q).numQubits ≤ 5) ∧
    (loadCircuit st gs st.numQubits).numQubits = st.numQubits := by
  refine ⟨rfl, by decide, rfl, ?_, rfl, ⟨hq1, hq5⟩, rfl⟩
  intro m hm
  fin_cases hm <;> exact ⟨by decide, by decide, rfl⟩

/-- Witness for C7 (amended) at a concrete load of a 4-qubit circuit. -/
theorem qubit_count_range_witness :
    (1 : Int) ≤ 4 ∧ (4 : Int) ≤ 5 ∧
    (loadCircuit initialState [] 4).numQubits = 4 :=
  ⟨by decide, by decide,
   (qubit_count_range initialState [] 4 (by decide) (by decide)).2.2.2.2.1⟩

lemma playRun_inactive (numSteps : Int) (k : Nat) (p : PlayState)
    (hp : p.intervalActive = false) : playRun numSteps k p = p := by
  cases k with
  | zero => rfl
  | succ k => simp [playRun, hp]

lemma playRun_char (numSteps : Int) (k : Nat) :
    ∀ j : Int, 0 ≤ j → j ≤ numSteps - 1 →
      playRun numSteps k ⟨j, true, true⟩ =
        if (k : Int) ≤ numSteps - 1 - j then ⟨j + (k : Int), true, true⟩
        else ⟨numSteps - 1, false, false⟩ := by
  induction k with
  | zero =>
      intro j hj0 hjle
      rw [if_pos (by omega)]
      simp [playRun]
  | succ k ih =>
      intro j hj0 hjle
      simp only [playRun]
      rw [if_pos trivial]
      by_cases hlast : numSteps - 1 ≤ j
      · have hj : j = numSteps - 1 := le_antisymm hjle hlast
        rw [stepTick, if_pos (by simpa using hlast)]
        rw [playRun_inactive numSteps k _ rfl]
        rw [if_neg (by push_cast; omega)]
        rw [hj]
      · push_neg at hlast
        rw [stepTick, if_neg (by simpa using not_le.mpr hlast)]
        have hstep :
            ({ (⟨j, true, true⟩ : PlayState) with currentStep := j + 1 } :
              PlayState) = ⟨j + 1, true, true⟩ := rfl
        rw [hstep, ih (j + 1) (by omega) (by omega)]
        by_cases hk : (k : Int) ≤ numSteps - 1 - (j + 1)
        · rw [if_pos hk, if_pos (by push_cast; omega)]
          have : j + 1 + (k : Int) = j + ((k : Int) + 1) := by omega
          push_cast
          rw [this]
        · rw [if_neg hk, if_neg (by push_cast; omega)]

/-- C10: with a step trace of `numSteps` prefixes loaded, each interval
tick while strictly before the last index advances currentStep by
exactly 1 and changes nothing else; a tick at or past the last index
keeps currentStep, clears the interval and resets the stepping flag;
playback started by playStepThrough (step 0, stepping, interval live)
therefore keeps currentStep within [0, numSteps - 1] after any number
of ticks and, once enough ticks have fired, sits halted at the final
prefix with the stepping flag down. -/
theorem play_step_through_halts (numSteps : Int) (hpos : 1 ≤ numSteps)
    (k : Nat) :
    (0 ≤ (playRun numSteps k playInit).currentStep ∧
      (playRun numSteps k playInit).currentStep ≤ numSteps - 1) ∧
    (∀ p : PlayState, p.currentStep < numSteps - 1 →
      (stepTick numSteps p).currentStep = p.currentStep + 1 ∧
      (stepTick numSteps p).isSteppingThrough = p.isSteppingThrough ∧
      (stepTick numSteps p).intervalActive = p.intervalActive) ∧
    (∀ p : PlayState, numSteps - 1 ≤ p.currentStep →
      (stepTick numSteps p).currentStep = p.currentStep ∧
      (stepTick numSteps p).isSteppingThrough = false ∧
      (stepTick numSteps p).intervalActive = false) ∧
    (numSteps ≤ (k : Int) →
      (playRun numSteps k playInit).currentStep = numSteps - 1 ∧
      (playRun numSteps k playInit).isSteppingThrough = false) := by
  have hchar := playRun_char numSteps k 0 le_rfl (by omega)
  have hinit : (⟨0, true, true⟩ : PlayState) = playInit := rfl
  rw [hinit] at hchar
  refine ⟨?_, ?_, ?_, ?_⟩
  · rw [hchar]
    split
    · dsimp only
      omega
    · dsimp only
      omega
  · intro p hp
    rw [stepTick, if_neg (by omega)]
    exact ⟨rfl, rfl, rfl⟩
  · intro p hp
    rw [stepTick, if_pos hp]
    exact ⟨rfl, rfl, rfl⟩
  · intro hk
    rw [hchar, if_neg (by omega)]
    exact ⟨rfl, rfl⟩

/-- Witness for C10: a 2-prefix trace played for 5 ticks sits at the
final index 1 with the stepping flag down. -/
theorem play_step_through_halts_witness :
    (playRun 2 5 playInit).currentStep = 2 - 1 ∧
    (playRun 2 5 playInit).isSteppingThrough = false :=
  (play_step_through_halts 2 (by norm_num) 5).2.2.2 (by norm_num)

lemma runLoop_bounds {Ctx Tool : Type} (reason : Ctx → ReasonStep Ctx Tool)
    (execTool : Tool → Ctx → Ctx) :
    ∀ (fuel : Nat) (ctx : Ctx) (iters tools : Nat),
      (runLoop reason execTool fuel ctx iters tools).iterations ≤
          iters + fuel ∧
        (runLoop reason execTool fuel ctx iters tools).toolCalls ≤
          tools + fuel := by
  intro fuel
  induction fuel with
  | zero => intro ctx iters tools; simp [runLoop]
  | succ fuel ih =>
      intro ctx iters tools
      simp only [runLoop]
      cases hreason : reason ctx with
      | finalText txt => dsimp only; omega
      | toolCall req =>
          dsimp only
          have := ih (execTool req ctx) (iters + 1) (tools + 1)
          omega

lemma runLoop_always_tool {Ctx Tool : Type}
    (reason : Ctx → ReasonStep Ctx Tool) (execTool : Tool → Ctx → Ctx)
    (halways : ∀ c, ∃ req, reason c = .toolCall req) :
    ∀ (fuel : Nat) (ctx : Ctx) (iters tools : Nat),
      runLoop reason execTool fuel ctx iters tools =
        ⟨fallbackText, iters + fuel, tools + fuel⟩ := by
  intro fuel
  induction fuel with
  | zero => intro ctx iters tools; simp [runLoop]
  | succ fuel ih =>
      intro ctx iters tools
      obtain ⟨req, hreq⟩ := halways ctx
      simp only [runLoop, hreq]
      rw [ih (execTool req ctx) (iters + 1) (tools + 1)]
      have h1 : iters + 1 + fuel = iters + (fuel + 1) := by omega
      have h2 : tools + 1 + fuel = tools + (fuel + 1) := by omega
      rw [h1, h2]

/-- C2 (modelled from the spec; the AgentLoop implementation is a
backend component outside the embedded sources): any AgentLoop run
performs at most 8 reasoning round-trips and issues at most 8 tool
invocations; driven by a reasoning component that always requests a
tool it terminates at exactly 8 iterations, issues no more than 8 tool
invocations, and returns the non-empty fallback text instead of raising
(the loop is a total function). -/
theorem agent_loop_bounded {Ctx Tool : Type}
    (reason stub : Ctx → ReasonStep Ctx Tool)
    (execTool : Tool → Ctx → Ctx) (ctx : Ctx)
    (hstub : ∀ c, ∃ req, stub c = .toolCall req) :
    ((agentLoop reason execTool ctx).iterations ≤ 8 ∧
      (agentLoop reason execTool ctx).toolCalls ≤ 8) ∧
    (agentLoop stub execTool ctx).iterations = 8 ∧
    (agentLoop stub execTool ctx).toolCalls ≤ 8 ∧
    (agentLoop stub execTool ctx).text = fallbackText ∧
    ¬ fallbackText = "" := by
  have hb := runLoop_bounds reason execTool loopBound ctx 0 0
  have hs := runLoop_always_tool stub execTool hstub loopBound ctx 0 0
  simp only [loopBound, Nat.zero_add] at hb hs
  refine ⟨⟨?_, ?_⟩, ?_, ?_, ?_, by decide⟩
  · simpa [agentLoop, loopBound] using hb.1
  · simpa [agentLoop, loopBound] using hb.2
  · simp [agentLoop, loopBound, hs]
  · simp [agentLoop, loopBound, hs]
  · simp [agentLoop, loopBound, hs]

/-- A reasoning stub over a trivial context that always requests a
tool, for exercising the loop bound. -/
def alwaysToolStub : Unit → ReasonStep Unit Unit := fun _ => .toolCall ()

/-- Witness for C2: the always-tool stub over the trivial context stops
at exactly 8 iterations with the fallback text. -/
theorem agent_loop_bounded_witness :
    (agentLoop alwaysToolStub (fun _ c => c) ()).iterations = 8 ∧
    (agentLoop alwaysToolStub (fun _ c => c) ()).text = fallbackText :=
  ⟨(agent_loop_bounded alwaysToolStub alwaysToolStub (fun _ c => c) ()
      (fun _ => ⟨(), rfl⟩)).2.1,
   (agent_loop_bounded alwaysToolStub alwaysToolStub (fun _ c => c) ()
      (fun _ => ⟨(), rfl⟩)).2.2.2.1⟩

/-- The assistant message `sendMessage` appends for a given settlement
of the `api.chat` promise: the response payload on resolution, the
fixed error text on rejection. -/
def replyOf : Except Unit ChatResponse → ChatMsg
  | .ok r => ⟨"assistant", r.response, r.tool_calls, r.challenge⟩
  | .error _ => ⟨"assistant", chatErrorText, none, none⟩

/-- C6 counterexample: the claim says the assistant message appended on
resolution has non-empty textual content, but `sendMessage` appends the
response text unchanged, so a chat call that resolves with an empty
response string appends an assistant message with empty content. -/
theorem sendMessage_empty_reply_counterexample :
    (sendMessage "hi" false [] [] initialState
        (.ok ⟨"", none, none, none⟩)).messages =
      [⟨"user", "hi", none, none⟩, ⟨"assistant", "", none, none⟩] ∧
    (ChatMsg.mk "assistant" "" none none).content = "" :=
  ⟨by decide, rfl⟩

/-- C6 (amended): for every submission with non-empty trimmed input
while not loading, exactly one assistant message is appended after the
user message: its content is the response text when `api.chat` resolves
(so it is non-empty exactly when the backend's text is) and the fixed
non-empty error text when `api.chat` rejects; `sendMessage` is a total
function, so no failure propagates to the caller. -/
theorem sendMessage_single_reply (input : String)
    (messages : List ChatMsg) (conversation : List ChatTurn)
    (provider : ProviderState) (apiResult : Except Unit ChatResponse)
    (hinput : isBlank input = false) :
    (sendMessage input false messages conversation provider
        apiResult).messages =
      messages ++ [⟨"user", input, none, none⟩, replyOf apiResult] ∧
    (replyOf apiResult).role = "assistant" ∧
    (∀ e : Unit, apiResult = .error e →
      (replyOf apiResult).content = chatErrorText) ∧
    ¬ chatErrorText = "" ∧
    (∀ r : ChatResponse, apiResult = .ok r →
      (replyOf apiResult).content = r.response) := by
  refine ⟨?_, ?_, ?_, by decide, ?_⟩
  · cases apiResult with
    | ok r => simp [sendMessage, hinput, replyOf]
    | error e => simp [sendMessage, hinput, replyOf]
  · cases apiResult <;> rfl
  · intro e he
    rw [he]
    rfl
  · intro r hr
    rw [hr]
    rfl

/-- Witness for C6 (amended) at a concrete rejected chat call: the
fixed error message is the single assistant reply appended. -/
theorem sendMessage_single_reply_witness :
    isBlank "hi" = false ∧
    (sendMessage "hi" false [] [] initialState (.error ())).messages =
      [⟨"user", "hi", none, none⟩,
        ⟨"assistant", chatErrorText, none, none⟩] := by
  have h : isBlank "hi" = false := by decide
  refine ⟨h, ?_⟩
  have hmain :=
    (sendMessage_single_reply "hi" [] [] initialState (.error ()) h).1
  simpa [replyOf] using hmain

lemma jge_toInt {p : JNum} {lo : Int} (hge : p.jge lo = true) :
    p = .int p.toInt ∧ lo ≤ p.toInt := by
  cases p with
  | nan => simp [JNum.jge] at hge
  | int v => simpa [JNum.jge, JNum.toInt] using hge

lemma jlt_toInt {p : JNum} {hi : Int} (hlt : p.jlt hi = true) :
    p.toInt < hi := by
  cases p with
  | nan => simp [JNum.jlt] at hlt
  | int v => simpa [JNum.jlt, JNum.toInt] using hlt

lemma drop_arity_one (gn : GateName) (numQubits : Int) (p1 p2 p3 : JNum)
    (g : GateName) (ts : List Int)
    (hq : (GATE_CATALOG gn).qubits = 1)
    (hdrop : handleGateDrop gn numQubits p1 p2 p3 = some (g, ts)) :
    ts.length = (GATE_CATALOG g).qubits ∧
    (∀ v ∈ ts, 0 ≤ v ∧ v < numQubits) ∧ ts.Nodup := by
  simp only [handleGateDrop, hq] at hdrop
  norm_num at hdrop
  obtain ⟨⟨hge, hlt⟩, hgeq, hts⟩ := hdrop
  subst hgeq
  subst hts
  refine ⟨by simpa using hq.symm, ?_, by simp⟩
  intro v hv
  rw [List.mem_singleton] at hv
  subst hv
  exact ⟨(jge_toInt hge).2, jlt_toInt hlt⟩

lemma drop_arity_two (gn : GateName) (numQubits : Int) (p1 p2 p3 : JNum)
    (g : GateName) (ts : List Int)
    (hq : (GATE_CATALOG gn).qubits = 2)
    (hdrop : handleGateDrop gn numQubits p1 p2 p3 = some (g, ts)) :
    ts.length = (GATE_CATALOG g).qubits ∧
    (∀ v ∈ ts, 0 ≤ v ∧ v < numQubits) ∧ ts.Nodup := by
  simp only [handleGateDrop, hq] at hdrop
  norm_num at hdrop
  obtain ⟨⟨⟨⟨⟨hne, hge1⟩, hge2⟩, hlt1⟩, hlt2⟩, hgeq, hts⟩ := hdrop
  subst hgeq
  subst hts
  obtain ⟨hp1, hge1b⟩ := jge_toInt hge1
  obtain ⟨hp2, hge2b⟩ := jge_toInt hge2
  have hneInt : p1.toInt ≠ p2.toInt := by
    intro hcon
    rw [hp1, hp2, hcon] at hne
    simp [JNum.strictNe] at hne
  refine ⟨by simpa using hq.symm, ?_, by simp [hneInt]⟩
  intro v hv
  rcases List.mem_pair.mp hv with hv | hv <;> subst hv
  · exact ⟨hge1b, jlt_toInt hlt1⟩
  · exact ⟨hge2b, jlt_toInt hlt2⟩

lemma drop_arity_three (gn : GateName) (numQubits : Int) (p1 p2 p3 : JNum)
    (g : GateName) (ts : List Int)
    (hq : (GATE_CATALOG gn).qubits = 3)
    (hdrop : handleGateDrop gn numQubits p1 p2 p3 = some (g, ts)) :
    ts.length = (GATE_CATALOG g).qubits ∧
    (∀ v ∈ ts, 0 ≤ v ∧ v < numQubits) ∧ ts.Nodup := by
  simp only [handleGateDrop, hq] at hdrop
  norm_num at hdrop
  obtain ⟨⟨hdedup, ⟨hge1, hlt1⟩, ⟨hge2, hlt2⟩, hge3, hlt3⟩, hgeq, hts⟩ := hdrop
  subst hgeq
  subst hts
  obtain ⟨hp1, hge1b⟩ := jge_toInt hge1
  obtain ⟨hp2, hge2b⟩ := jge_toInt hge2
  obtain ⟨hp3, hge3b⟩ := jge_toInt hge3
  have hnd : ([p1, p2, p3] : List JNum).Nodup := by
    rw [← List.dedup_eq_self]
    refine (List.dedup_sublist [p1, p2, p3]).eq_of_length ?_
    rw [List.length_cons, List.length_cons, List.length_singleton]
    simpa using hdedup
  simp only [List.nodup_cons, List.mem_cons, List.mem_singleton,
    List.not_mem_nil, or_false, not_or, List.nodup_nil, and_true] at hnd
  obtain ⟨⟨h12, h13⟩, h23, _⟩ := hnd
  have hne12 : p1.toInt ≠ p2.toInt := fun hcon => h12 (by rw [hp1, hp2, hcon])
  have hne13 : p1.toInt ≠ p3.toInt := fun hcon => h13 (by rw [hp1, hp3, hcon])
  have hne23 : p2.toInt ≠ p3.toInt := fun hcon => h23 (by rw [hp2, hp3, hcon])
  refine ⟨by simpa using hq.symm, ?_, by simp [hne12, hne13, hne23]⟩
  intro v hv
  simp only [List.mem_cons, List.mem_singleton, List.not_mem_nil,
    or_false] at hv
  rcases hv with hv | hv | hv <;> subst hv
  · exact ⟨hge1b, jlt_toInt hlt1⟩
  · exact ⟨hge2b, jlt_toInt hlt2⟩
  · exact ⟨hge3b, jlt_toInt hlt3⟩

/-- C1: whatever the prompt inputs (including NaN from unparsable text)
and the current qubit count, any operation handleGateDrop hands to
addGate satisfies the GateOperation invariant: the target count equals
the gate's catalog arity, every target lies in [0, numQubits), and the
targets are pairwise distinct; when any condition would fail the handler
adds no gate (returns none). -/
theorem handleGateDrop_invariant (gateName : GateName) (numQubits : Int)
    (p1 p2 p3 : JNum) (g : GateName) (ts : List Int)
    (hdrop : handleGateDrop gateName numQubits p1 p2 p3 = some (g, ts)) :
    ts.length = (GATE_CATALOG g).qubits ∧
    (∀ v ∈ ts, 0 ≤ v ∧ v < numQubits) ∧
    ts.Nodup := by
  cases gateName
  case h => exact drop_arity_one .h numQubits p1 p2 p3 g ts rfl hdrop
  case x => exact drop_arity_one .x numQubits p1 p2 p3 g ts rfl hdrop
  case y => exact drop_arity_one .y numQubits p1 p2 p3 g ts rfl hdrop
  case z => exact drop_arity_one .z numQubits p1 p2 p3 g ts rfl hdrop
  case s => exact drop_arity_one .s numQubits p1 p2 p3 g ts rfl hdrop
  case t => exact drop_arity_one .t numQubits p1 p2 p3 g ts rfl hdrop
  case cx => exact drop_arity_two .cx numQubits p1 p2 p3 g ts rfl hdrop
  case ccx => exact drop_arity_three .ccx numQubits p1 p2 p3 g ts rfl hdrop

/-- Witness for C1 at a concrete Toffoli drop on a 3-qubit circuit:
targets [0, 1, 2] have length 3, all lie in range, and are distinct. -/
theorem handleGateDrop_invariant_witness :
    handleGateDrop .ccx 3 (.int 0) (.int 1) (.int 2) =
      some (.ccx, [0, 1, 2]) ∧
    ([0, 1, 2] : List Int).length = (GATE_CATALOG .ccx).qubits ∧
    (∀ v ∈ ([0, 1, 2] : List Int), 0 ≤ v ∧ v < 3) ∧
    ([0, 1, 2] : List Int).Nodup :=
  ⟨by decide,
   handleGateDrop_invariant .ccx 3 (.int 0) (.int 1) (.int 2) .ccx
     [0, 1, 2] (by decide)⟩

end QuantumIQ
